import Mathlib

/-!
Shallow embedding of the gstbotbackend RAG query service, translated from
app/models/schemas.py, app/services/pinecone_service.py and app/main.py.
External providers (Pinecone, OpenAI) are modelled as environments whose
calls return an Except value; an .error models the provider raising.
-/

set_option maxRecDepth 2048

/-- Metadata mapping attached to a vector-search match. Only the keys
`text`, `file_name` and `page` are ever consulted by the service
(extract_context_and_references in pinecone_service.py); each may be
absent from the mapping, hence the Option types. -/
structure Metadata where
  text : Option String
  file_name : Option String
  page : Option Int
deriving DecidableEq

/-- Raw match as returned by a Pinecone index query, before query_namespace
annotates it: a similarity score plus the metadata mapping. A match may
lack the metadata key entirely, hence the Option. -/
structure RawMatch where
  score : Rat
  metadata : Option Metadata
deriving DecidableEq

/-- Match after query_namespace adds the index and namespace information
(pinecone_service.py lines 60-62). -/
structure Match where
  score : Rat
  metadata : Option Metadata
  index_name : String
  «namespace» : String
deriving DecidableEq

/-- Reference, from app/models/schemas.py lines 10-13: the pydantic model
declares exactly the fields file_name, page and namespace. -/
structure Reference where
  file_name : String
  page : Int
  «namespace» : String
deriving DecidableEq

/-- Construction of a Reference as written at pinecone_service.py lines
133-138: the call site passes file_name, page, namespace and index_name,
but the pydantic model Reference (schemas.py) declares no index_name
field, and pydantic by default ignores extra constructor keywords, so the
index_name argument is silently discarded. -/
def Reference.pydanticMk (file_name : String) (page : Int) (ns : String)
    (_index_name : String) : Reference :=
  { file_name := file_name, page := page, «namespace» := ns }

/-- QueryResponse, from app/models/schemas.py lines 15-18. -/
structure QueryResponse where
  response : String
  success : Bool
  references : List Reference
deriving DecidableEq

/-- QueryRequest after pydantic validation: the query text plus a top_k
already known to be in range (schemas.py line 7). -/
structure QueryRequest where
  query : String
  top_k : Nat
deriving DecidableEq

/-- Pydantic validation of the incoming request body against
QueryRequest (schemas.py lines 5-7, Field(default=5, ge=1, le=20)): a
missing top_k defaults to 5; a present top_k outside 1..20 fails
validation before any handler code runs. -/
def QueryRequest.validate (query : String) (top_k : Option Int) :
    Except String QueryRequest :=
  match top_k with
  | none => .ok { query := query, top_k := 5 }
  | some v =>
    if 1 ≤ v ∧ v ≤ 20 then .ok { query := query, top_k := v.toNat }
    else .error "top_k must be between 1 and 20"

/-- Environment modelling the external Pinecone provider: the outcome of
list_indexes, of the describe_index_stats based list_namespaces for each
index, and of index.query for each (vector, index, namespace, top_k).
An .error value models the provider call raising an exception. -/
structure PineconeEnv where
  listIndexes : Except String (List String)
  listNamespacesOf : String → Except String (List String)
  queryRaw : List Rat → String → String → Nat → Except String (List RawMatch)

/-- Environment modelling the external OpenAI provider (openai_service.py):
embedding generation and chat-completion answer generation. -/
structure OpenAIEnv where
  generateEmbedding : String → Except String (List Rat)
  generateResponse : String → String → Except String String

/-- PineconeService.query_namespace (pinecone_service.py lines 47-69):
query one namespace of one index and annotate each returned match with the
index_name and namespace it came from; any exception in the provider call
is caught, logged, and turned into an empty match list. -/
def query_namespace (penv : PineconeEnv) (query_vector : List Rat)
    (index_name ns : String) (top_k : Nat) : List Match :=
  match penv.queryRaw query_vector index_name ns top_k with
  | .error _ => []
  | .ok ms => ms.map fun r =>
      { score := r.score, metadata := r.metadata,
        index_name := index_name, «namespace» := ns }

/-- Match-collection loop of PineconeService.query_entire_database
(pinecone_service.py lines 87-103): all_results starts empty; for every
index, enumerate its namespaces and extend all_results with each
namespace query in order; a failure while enumerating one index's
namespaces is caught and that index is skipped (continue). -/
def collect_results (penv : PineconeEnv) (query_vector : List Rat)
    (indexes : List String) (top_k : Nat) : List Match :=
  indexes.foldl
    (fun all_results index_name =>
      match penv.listNamespacesOf index_name with
      | .error _ => all_results
      | .ok namespaces =>
        namespaces.foldl
          (fun acc ns =>
            acc ++ query_namespace penv query_vector index_name ns top_k)
          all_results)
    []

/-- Insertion step of the stable non-increasing sort on score: a match is
placed before the first existing element whose score is less than or equal
to its own, so earlier-collected matches stay ahead of later ones with an
equal score. -/
def insert_desc (m : Match) : List Match → List Match
  | [] => [m]
  | x :: xs => if x.score ≤ m.score then m :: x :: xs else x :: insert_desc m xs

/-- Models the call all_results.sort(key=lambda x: x['score'], reverse=True)
at pinecone_service.py line 106. Python's list.sort is stable, and with
reverse=True it computes the stable non-increasing order by the key; this
insertion sort computes exactly that order. -/
def sort_by_score_desc : List Match → List Match
  | [] => []
  | m :: ms => insert_desc m (sort_by_score_desc ms)

/-- PineconeService.query_entire_database (pinecone_service.py lines
71-112): embed the query, enumerate the indexes, collect the matches of
every index/namespace pair, sort all results by score descending and
truncate to the first top_k. A failure of the embedding call or of
list_indexes escapes the body and is re-raised with the Database-wide
prefix by the enclosing except clause; per-namespace and per-index
failures were already absorbed inside collect_results/query_namespace. -/
def query_entire_database (penv : PineconeEnv) (oenv : OpenAIEnv)
    (query : String) (top_k : Nat) : Except String (List Match) :=
  match oenv.generateEmbedding query with
  | .error e => .error ("Database-wide query failed: " ++ e)
  | .ok query_vector =>
    match penv.listIndexes with
    | .error e => .error ("Database-wide query failed: " ++ e)
    | .ok indexes =>
      .ok ((sort_by_score_desc
              (collect_results penv query_vector indexes top_k)).take top_k)

/-- Source tag prepended to a context fragment (pinecone_service.py line
127). -/
def source_info (m : Match) : String :=
  "[Source: " ++ m.index_name ++ "/" ++ m.«namespace» ++ "]\n"

/-- Per-match extraction loop of extract_context_and_references
(pinecone_service.py lines 119-138), processed in list order: a match
without a metadata key is skipped entirely; if the metadata has a text
field the tagged text is appended to the context list; independently, if
the metadata has both file_name and page a Reference is appended. -/
def extract_loop : List Match → List String × List Reference
  | [] => ([], [])
  | m :: rest =>
    let tail := extract_loop rest
    match m.metadata with
    | none => tail
    | some md =>
      (match md.text with
        | some t => (source_info m ++ t) :: tail.1
        | none => tail.1,
       match md.file_name, md.page with
        | some fn, some pg =>
          Reference.pydanticMk fn pg m.«namespace» m.index_name :: tail.2
        | _, _ => tail.2)

/-- Per-match context contribution: the value appended to contexts for a
match, when any (pinecone_service.py lines 123-128). -/
def context_of (m : Match) : Option String :=
  match m.metadata with
  | none => none
  | some md =>
    match md.text with
    | none => none
    | some t => some (source_info m ++ t)

/-- Per-match reference contribution: the Reference appended for a match,
when any (pinecone_service.py lines 131-138). -/
def reference_of (m : Match) : Option Reference :=
  match m.metadata with
  | none => none
  | some md =>
    match md.file_name, md.page with
    | some fn, some pg =>
      some (Reference.pydanticMk fn pg m.«namespace» m.index_name)
    | _, _ => none

/-- PineconeService.extract_context_and_references (pinecone_service.py
lines 114-146): run the extraction loop, then join all context fragments
with blank lines (the join of no fragments is the empty string, matching
the `if contexts else \x22\x22` guard). The loop body is total, so the
enclosing except clause never fires. -/
def extract_context_and_references («matches» : List Match) :
    String × List Reference :=
  let (contexts, references) := extract_loop «matches»
  (String.intercalate "\n\n" contexts, references)

/-- PineconeService.search_entire_database (pinecone_service.py lines
148-161): run the database-wide query then extract context and
references, re-wrapping a query failure with the Database-wide search
prefix. -/
def search_entire_database (penv : PineconeEnv) (oenv : OpenAIEnv)
    (query : String) (top_k : Nat) : Except String (String × List Reference) :=
  match query_entire_database penv oenv query top_k with
  | .error e => .error ("Database-wide search failed: " ++ e)
  | .ok ms => .ok (extract_context_and_references ms)

/-- Fixed fallback answer returned when no context was retrieved
(main.py line 62). -/
def fallback_response : String :=
  "I don't have enough information to answer this question."

/-- Body of the POST /query handler handle_query (main.py lines 45-79):
search the entire database; if the merged context is empty, skip
generation and return the fixed fallback with success true and an empty
reference list; otherwise generate an answer and return it with the
accumulated references. An .error result models the HTTPException 500
path. -/
def handle_query (penv : PineconeEnv) (oenv : OpenAIEnv)
    (request : QueryRequest) : Except String QueryResponse :=
  match search_entire_database penv oenv request.query request.top_k with
  | .error e => .error e
  | .ok (context, references) =>
    if context = "" then
      .ok { response := fallback_response, success := true, references := [] }
    else
      match oenv.generateResponse context request.query with
      | .error e => .error e
      | .ok response_text =>
        .ok { response := response_text, success := true,
              references := references }

/-- Wire-level flow of POST /query: FastAPI first validates the request
body against the QueryRequest model; only a validated request reaches
handle_query, so no provider function is consulted when validation
fails. -/
def query_endpoint (penv : PineconeEnv) (oenv : OpenAIEnv)
    (query : String) (top_k : Option Int) : Except String QueryResponse :=
  match QueryRequest.validate query top_k with
  | .error e => .error e
  | .ok request => handle_query penv oenv request

/-! Helper lemmas about the stable descending sort. -/

theorem mem_insert_desc {m y : Match} {l : List Match}
    (h : y ∈ insert_desc m l) : y = m ∨ y ∈ l := by
  induction l with
  | nil => simpa [insert_desc] using h
  | cons x xs ih =>
    by_cases hc : x.score ≤ m.score
    · simp only [insert_desc, if_pos hc, List.mem_cons] at h
      rcases h with rfl | rfl | h
      · exact Or.inl rfl
      · exact Or.inr (List.mem_cons_self _ _)
      · exact Or.inr (List.mem_cons_of_mem _ h)
    · simp only [insert_desc, if_neg hc, List.mem_cons] at h
      rcases h with rfl | h
      · exact Or.inr (List.mem_cons_self _ _)
      · rcases ih h with rfl | h2
        · exact Or.inl rfl
        · exact Or.inr (List.mem_cons_of_mem _ h2)

theorem insert_desc_perm (m : Match) (l : List Match) :
    (insert_desc m l).Perm (m :: l) := by
  induction l with
  | nil => simp [insert_desc]
  | cons x xs ih =>
    by_cases hc : x.score ≤ m.score
    · simp [insert_desc, hc]
    · simp only [insert_desc, if_neg hc]
      exact (ih.cons x).trans (List.Perm.swap m x xs)

theorem sort_by_score_desc_perm (l : List Match) :
    (sort_by_score_desc l).Perm l := by
  induction l with
  | nil => simp [sort_by_score_desc]
  | cons m ms ih =>
    exact (insert_desc_perm m (sort_by_score_desc ms)).trans (ih.cons m)

theorem pairwise_insert_desc {m : Match} {l : List Match}
    (h : l.Pairwise (fun a b => b.score ≤ a.score)) :
    (insert_desc m l).Pairwise (fun a b => b.score ≤ a.score) := by
  induction l with
  | nil => simp [insert_desc]
  | cons x xs ih =>
    rcases List.pairwise_cons.mp h with ⟨hx, hxs⟩
    by_cases hc : x.score ≤ m.score
    · simp only [insert_desc, if_pos hc]
      refine List.pairwise_cons.mpr ⟨?_, h⟩
      intro y hy
      rcases List.mem_cons.mp hy with rfl | hy2
      · exact hc
      · exact le_trans (hx y hy2) hc
    · simp only [insert_desc, if_neg hc]
      refine List.pairwise_cons.mpr ⟨?_, ih hxs⟩
      intro y hy
      rcases mem_insert_desc hy with rfl | hy2
      · exact le_of_lt (lt_of_not_le hc)
      · exact hx y hy2

theorem sorted_sort_by_score_desc (l : List Match) :
    (sort_by_score_desc l).Pairwise (fun a b => b.score ≤ a.score) := by
  induction l with
  | nil => simp [sort_by_score_desc]
  | cons m ms ih => exact pairwise_insert_desc ih

theorem insert_desc_filter_eq {m : Match} {s : Rat} (hm : m.score = s)
    (l : List Match) :
    (insert_desc m l).filter (fun x => decide (x.score = s)) =
      m :: l.filter (fun x => decide (x.score = s)) := by
  induction l with
  | nil => simp [insert_desc, hm]
  | cons x xs ih =>
    by_cases hc : x.score ≤ m.score
    · simp only [insert_desc, if_pos hc]
      simp [List.filter_cons, hm]
    · have hx : ¬ (x.score = s) := by
        intro hxe
        exact hc (le_of_eq (hxe.trans hm.symm))
      simp [insert_desc, if_neg hc, List.filter_cons, hx, ih]

theorem insert_desc_filter_ne {m : Match} {s : Rat} (hm : ¬ (m.score = s))
    (l : List Match) :
    (insert_desc m l).filter (fun x => decide (x.score = s)) =
      l.filter (fun x => decide (x.score = s)) := by
  induction l with
  | nil => simp [insert_desc, hm]
  | cons x xs ih =>
    by_cases hc : x.score ≤ m.score
    · simp [insert_desc, if_pos hc, List.filter_cons, hm]
    · simp [insert_desc, if_neg hc, List.filter_cons, ih]

theorem sort_by_score_desc_filter (l : List Match) (s : Rat) :
    (sort_by_score_desc l).filter (fun x => decide (x.score = s)) =
      l.filter (fun x => decide (x.score = s)) := by
  induction l with
  | nil => rfl
  | cons m ms ih =>
    by_cases hm : m.score = s
    · rw [sort_by_score_desc, insert_desc_filter_eq hm, ih]
      simp [List.filter_cons, hm]
    · rw [sort_by_score_desc, insert_desc_filter_ne hm, ih]
      simp [List.filter_cons, hm]

/-! Helper lemmas about extraction. -/

theorem extract_loop_eq (l : List Match) :
    extract_loop l = (l.filterMap context_of, l.filterMap reference_of) := by
  induction l with
  | nil => rfl
  | cons m rest ih =>
    rcases hmd : m.metadata with _ | md
    · simp [extract_loop, List.filterMap_cons, context_of, reference_of,
        hmd, ih]
    · rcases ht : md.text with _ | t <;>
        rcases hf : md.file_name with _ | fn <;>
        rcases hp : md.page with _ | pg <;>
        simp [extract_loop, List.filterMap_cons, context_of, reference_of,
          hmd, ht, hf, hp, ih]

theorem extract_loop_refs_length (l : List Match) :
    (extract_loop l).2.length ≤ l.length := by
  rw [extract_loop_eq]
  exact List.length_filterMap_le _ _

/-! Helper lemmas about the collection fold. -/

theorem mem_foldl_of_mem_acc {α β : Type} (f : List α → β → List α)
    (hf : ∀ acc b x, x ∈ acc → x ∈ f acc b) (l : List β) :
    ∀ acc x, x ∈ acc → x ∈ l.foldl f acc := by
  induction l with
  | nil => intro acc x hx; simpa using hx
  | cons b bs ih => intro acc x hx; exact ih _ _ (hf _ _ _ hx)

theorem mem_inner_fold (penv : PineconeEnv) (qv : List Rat) (i : String)
    (k : Nat) {nss : List String} {n : String} (hn : n ∈ nss) {m : Match}
    (hm : m ∈ query_namespace penv qv i n k) (acc : List Match) :
    m ∈ nss.foldl (fun a ns => a ++ query_namespace penv qv i ns k) acc := by
  induction nss generalizing acc with
  | nil => cases hn
  | cons n0 rest ih =>
    rcases List.mem_cons.mp hn with rfl | hn2
    · simp only [List.foldl_cons]
      exact mem_foldl_of_mem_acc _
        (fun a b x hx => List.mem_append_left _ hx) rest _ m
        (List.mem_append_right _ hm)
    · simp only [List.foldl_cons]
      exact ih hn2 _

theorem step_preserves_mem (penv : PineconeEnv) (qv : List Rat) (k : Nat)
    (acc : List Match) (index_name : String) {m : Match} (hm : m ∈ acc) :
    m ∈ (match penv.listNamespacesOf index_name with
         | .error _ => acc
         | .ok namespaces =>
           namespaces.foldl
             (fun a ns => a ++ query_namespace penv qv index_name ns k)
             acc) := by
  rcases h : penv.listNamespacesOf index_name with e | nss
  · simpa [h] using hm
  · simp only [h]
    exact mem_foldl_of_mem_acc _
      (fun a b x hx => List.mem_append_left _ hx) nss acc m hm

theorem mem_collect_results (penv : PineconeEnv) (qv : List Rat) (k : Nat)
    {indexes : List String} {i : String} (hi : i ∈ indexes)
    {nss : List String} (hns : penv.listNamespacesOf i = .ok nss)
    {n : String} (hn : n ∈ nss) {m : Match}
    (hm : m ∈ query_namespace penv qv i n k) :
    m ∈ collect_results penv qv indexes k := by
  have main : ∀ (idxs : List String), i ∈ idxs → ∀ acc : List Match,
      m ∈ idxs.foldl (fun all_results index_name =>
        match penv.listNamespacesOf index_name with
        | .error _ => all_results
        | .ok namespaces =>
          namespaces.foldl
            (fun acc2 ns => acc2 ++ query_namespace penv qv index_name ns k)
            all_results) acc := by
    intro idxs
    induction idxs with
    | nil => intro h; cases h
    | cons i0 rest ih =>
      intro hmem acc
      rcases List.mem_cons.mp hmem with rfl | h2
      · simp only [List.foldl_cons]
        refine mem_foldl_of_mem_acc _
          (fun a b x hx => step_preserves_mem penv qv k a b hx) rest _ m ?_
        simp only [hns]
        exact mem_inner_fold penv qv i k hn hm acc
      · simp only [List.foldl_cons]
        exact ih h2 _
  exact main indexes hi []

/-! Inversion lemmas for the pipeline. -/

theorem query_entire_database_ok (penv : PineconeEnv) (oenv : OpenAIEnv)
    {q : String} (k : Nat) {qv : List Rat} {idxs : List String}
    (hE : oenv.generateEmbedding q = .ok qv)
    (hI : penv.listIndexes = .ok idxs) :
    query_entire_database penv oenv q k =
      .ok ((sort_by_score_desc (collect_results penv qv idxs k)).take k) := by
  unfold query_entire_database
  rw [hE, hI]

theorem query_entire_database_length {penv : PineconeEnv} {oenv : OpenAIEnv}
    {q : String} {k : Nat} {ms : List Match}
    (h : query_entire_database penv oenv q k = .ok ms) : ms.length ≤ k := by
  unfold query_entire_database at h
  rcases hE : oenv.generateEmbedding q with e | qv
  · rw [hE] at h; simp at h
  · rw [hE] at h
    rcases hI : penv.listIndexes with e | idxs
    · rw [hI] at h; simp at h
    · rw [hI] at h
      simp only [Except.ok.injEq] at h
      rw [← h]
      exact List.length_take_le _ _

theorem search_entire_database_ok_inv {penv : PineconeEnv} {oenv : OpenAIEnv}
    {q : String} {k : Nat} {c : String} {refs : List Reference}
    (h : search_entire_database penv oenv q k = .ok (c, refs)) :
    ∃ ms, query_entire_database penv oenv q k = .ok ms ∧
      extract_context_and_references ms = (c, refs) := by
  unfold search_entire_database at h
  rcases hq : query_entire_database penv oenv q k with e | ms
  · rw [hq] at h; simp at h
  · rw [hq] at h
    simp only [Except.ok.injEq] at h
    exact ⟨ms, rfl, h⟩

theorem extract_context_and_references_eq (l : List Match) :
    extract_context_and_references l =
      (String.intercalate "\n\n" (l.filterMap context_of),
       l.filterMap reference_of) := by
  unfold extract_context_and_references
  rw [extract_loop_eq]

/-! Concrete matches, metadata and provider environments used in concrete
instances and witnesses. -/

def meta_full : Metadata :=
  { text := some "chunk text", file_name := some "doc.pdf", page := some 3 }

def match_09 : Match :=
  { score := 0.9, metadata := none, index_name := "idx-a", «namespace» := "ns-a" }

def match_095 : Match :=
  { score := 0.95, metadata := none, index_name := "idx-b", «namespace» := "ns-b" }

def match_08 : Match :=
  { score := 0.8, metadata := none, index_name := "idx-c", «namespace» := "ns-c" }

def match_09_later : Match :=
  { score := 0.9, metadata := none, index_name := "idx-d", «namespace» := "ns-d" }

def match_ref_a : Match :=
  { score := 0.9, metadata := some meta_full, index_name := "idx-a",
    «namespace» := "ns" }

def match_ref_b : Match :=
  { score := 0.9, metadata := some meta_full, index_name := "idx-b",
    «namespace» := "ns" }

def raw_full : RawMatch := { score := 0.9, metadata := some meta_full }

def penv_one : PineconeEnv :=
  { listIndexes := .ok ["idx-a"],
    listNamespacesOf := fun _ => .ok ["ns"],
    queryRaw := fun _ _ _ _ => .ok [raw_full] }

def oenv_ok : OpenAIEnv :=
  { generateEmbedding := fun _ => .ok [],
    generateResponse := fun _ _ => .ok "generated answer" }

def resp_one : QueryResponse :=
  { response := "generated answer", success := true,
    references := [{ file_name := "doc.pdf", page := 3, «namespace» := "ns" }] }

/-- C1: contrary to the claim, a Reference returned by the whole-database
endpoint does not carry the index_name of the index the match came from:
the Reference model (schemas.py) declares only file_name, page and
namespace, so the index_name argument passed during aggregation
(pinecone_service.py line 137) is silently dropped, and two matches
identical except for their source index yield identical References. -/
theorem c1_reference_has_no_index_name :
    (extract_context_and_references [match_ref_a]).2 =
      [{ file_name := "doc.pdf", page := 3, «namespace» := "ns" }]
    ∧ (extract_context_and_references [match_ref_a]).2 =
      (extract_context_and_references [match_ref_b]).2 :=
  ⟨rfl, rfl⟩

/-- C2: for every request with top_k between 1 and 20 and every provider
behaviour, a successful QueryResponse never carries more than top_k
references. -/
theorem c2_references_le_top_k (penv : PineconeEnv) (oenv : OpenAIEnv)
    (request : QueryRequest) (h1 : 1 ≤ request.top_k)
    (h2 : request.top_k ≤ 20) (resp : QueryResponse)
    (h : handle_query penv oenv request = .ok resp) :
    resp.references.length ≤ request.top_k := by
  unfold handle_query at h
  rcases hs : search_entire_database penv oenv request.query request.top_k
    with e | ⟨c, refs⟩
  · rw [hs] at h; simp at h
  · rw [hs] at h
    dsimp only at h
    by_cases hc : c = ""
    · rw [if_pos hc] at h
      simp only [Except.ok.injEq] at h
      rw [← h]
      simp
    · rw [if_neg hc] at h
      rcases hg : oenv.generateResponse c request.query with e | txt
      · rw [hg] at h; simp at h
      · rw [hg] at h
        simp only [Except.ok.injEq] at h
        rcases search_entire_database_ok_inv hs with ⟨ms, hq, hx⟩
        rw [extract_context_and_references_eq] at hx
        have hrefs : refs = ms.filterMap reference_of :=
          (congrArg Prod.snd hx).symm
        have hlen : refs.length ≤ ms.length := by
          rw [hrefs]; exact List.length_filterMap_le _ _
        have hms := query_entire_database_length hq
        rw [← h]
        simpa using le_trans hlen hms

/-- Witness for C2: a concrete provider returning one match, top_k = 5. -/
theorem c2_witness :
    (1 : Nat) ≤ 5 ∧ (5 : Nat) ≤ 20 ∧
    handle_query penv_one oenv_ok { query := "q", top_k := 5 } = .ok resp_one ∧
    resp_one.references.length ≤ 5 :=
  ⟨by decide, by decide, rfl,
   c2_references_le_top_k penv_one oenv_ok { query := "q", top_k := 5 }
     (by decide) (by decide) resp_one rfl⟩

/-- C4: the aggregator sorts collected matches by score in non-increasing
order before truncating to top_k; on matches with scores 0.9, 0.95, 0.8
and top_k = 2 the truncated result is exactly the 0.95 entry followed by
the 0.9 entry. -/
theorem c4_sorted_desc_then_truncate :
    (∀ (l : List Match) (k : Nat),
        ((sort_by_score_desc l).take k).Pairwise (fun a b => b.score ≤ a.score))
    ∧ (sort_by_score_desc [match_09, match_095, match_08]).take 2 =
        [match_095, match_09] := by
  constructor
  · intro l k
    exact List.Pairwise.sublist (List.take_sublist k _)
      (sorted_sort_by_score_desc l)
  · norm_num [sort_by_score_desc, insert_desc, match_09, match_095, match_08]

/-- C5: the merge-and-rank sort is stable: two collected matches with equal
scores appear in the sorted list in the same relative order in which the
namespace/index calls produced them. -/
theorem c5_sort_stable_on_equal_scores (a b : Match) (l : List Match)
    (hab : [a, b].Sublist l) (hs : a.score = b.score) :
    [a, b].Sublist (sort_by_score_desc l) := by
  have h1 : [a, b].filter (fun x => decide (x.score = b.score)) = [a, b] := by
    simp [List.filter_cons, hs]
  have h2 : [a, b].Sublist (l.filter (fun x => decide (x.score = b.score))) := by
    rw [← h1]
    exact hab.filter _
  rw [← sort_by_score_desc_filter l b.score] at h2
  exact h2.trans (List.filter_sublist _)

/-- Witness for C5 at a concrete pair of equal-score matches. -/
theorem c5_witness :
    [match_09, match_09_later].Sublist [match_09, match_09_later]
    ∧ match_09.score = match_09_later.score
    ∧ [match_09, match_09_later].Sublist
        (sort_by_score_desc [match_09, match_09_later]) :=
  ⟨List.Sublist.refl _, rfl,
   c5_sort_stable_on_equal_scores match_09 match_09_later
     [match_09, match_09_later] (List.Sublist.refl _) rfl⟩

/-- C8: pydantic validation of QueryRequest rejects top_k = 0 and
top_k = 21 (indeed any value at most 0 or at least 21) for every possible
provider behaviour, so the rejection happens before any provider call;
omitting top_k yields the default value 5. -/
theorem c8_top_k_validated_before_providers :
    (∀ (penv : PineconeEnv) (oenv : OpenAIEnv) (q : String),
        query_endpoint penv oenv q (some 0) =
          .error "top_k must be between 1 and 20")
    ∧ (∀ (penv : PineconeEnv) (oenv : OpenAIEnv) (q : String),
        query_endpoint penv oenv q (some 21) =
          .error "top_k must be between 1 and 20")
    ∧ (∀ q : String, QueryRequest.validate q none =
        .ok { query := q, top_k := 5 })
    ∧ (∀ v : Int, v ≤ 0 ∨ 21 ≤ v →
        ∀ (penv : PineconeEnv) (oenv : OpenAIEnv) (q : String),
          query_endpoint penv oenv q (some v) =
            .error "top_k must be between 1 and 20") := by
  refine ⟨fun penv oenv q => rfl, fun penv oenv q => rfl,
    fun q => rfl, ?_⟩
  intro v hv penv oenv q
  unfold query_endpoint QueryRequest.validate
  have hout : ¬ (1 ≤ v ∧ v ≤ 20) := by
    rcases hv with hv | hv <;> omega
  dsimp only
  rw [if_neg hout]

/-- Witness for C8 at the concrete out-of-range value -7. -/
theorem c8_witness :
    ((-7 : Int) ≤ 0 ∨ 21 ≤ (-7 : Int)) ∧
    query_endpoint penv_one oenv_ok "q" (some (-7)) =
      .error "top_k must be between 1 and 20" :=
  ⟨Or.inl (by decide),
   c8_top_k_validated_before_providers.2.2.2 (-7) (Or.inl (by decide))
     penv_one oenv_ok "q"⟩

/-- C3: during whole-database search a provider failure on one namespace
(or while enumerating one index's namespaces) does not abort the request:
given a successful embedding and index enumeration the query always
completes with the sorted merged list; a namespace whose provider call
fails contributes no matches; and every match produced by any succeeding
namespace of any index appears in the final merged, ranked list. -/
theorem c3_namespace_failure_does_not_abort (penv : PineconeEnv)
    (oenv : OpenAIEnv) (q : String) (k : Nat) (qv : List Rat)
    (idxs : List String) (hE : oenv.generateEmbedding q = .ok qv)
    (hI : penv.listIndexes = .ok idxs) :
    query_entire_database penv oenv q k =
      .ok ((sort_by_score_desc (collect_results penv qv idxs k)).take k)
    ∧ (∀ i n e, penv.queryRaw qv i n k = .error e →
        query_namespace penv qv i n k = [])
    ∧ (∀ i ∈ idxs, ∀ nss, penv.listNamespacesOf i = .ok nss →
        ∀ n ∈ nss, ∀ m ∈ query_namespace penv qv i n k,
          m ∈ sort_by_score_desc (collect_results penv qv idxs k)) := by
  refine ⟨query_entire_database_ok penv oenv k hE hI, ?_, ?_⟩
  · intro i n e he
    unfold query_namespace
    rw [he]
  · intro i hi nss hns n hn m hm
    exact ((sort_by_score_desc_perm _).mem_iff).mpr
      (mem_collect_results penv qv k hi hns hn hm)

def penv_partial : PineconeEnv :=
  { listIndexes := .ok ["idx-a"],
    listNamespacesOf := fun _ => .ok ["ns-bad", "ns-good"],
    queryRaw := fun _ _ ns _ =>
      if ns = "ns-bad" then .error "provider down" else .ok [raw_full] }

def match_good : Match :=
  { score := 0.9, metadata := some meta_full, index_name := "idx-a",
    «namespace» := "ns-good" }

/-- Witness for C3: one namespace fails, the other's match still reaches
the merged ranked list and the query still succeeds. -/
theorem c3_witness :
    oenv_ok.generateEmbedding "q" = .ok []
    ∧ penv_partial.listIndexes = .ok ["idx-a"]
    ∧ penv_partial.queryRaw [] "idx-a" "ns-bad" 5 = .error "provider down"
    ∧ query_entire_database penv_partial oenv_ok "q" 5 =
        .ok ((sort_by_score_desc
              (collect_results penv_partial [] ["idx-a"] 5)).take 5)
    ∧ match_good ∈ sort_by_score_desc (collect_results penv_partial [] ["idx-a"] 5) := by
  have h := c3_namespace_failure_does_not_abort penv_partial oenv_ok "q" 5 []
    ["idx-a"] rfl rfl
  refine ⟨rfl, rfl, rfl, h.1, ?_⟩
  have hq : query_namespace penv_partial [] "idx-a" "ns-good" 5 = [match_good] := rfl
  refine h.2.2 "idx-a" ?_ ["ns-bad", "ns-good"] rfl "ns-good" ?_ match_good ?_
  · exact List.mem_singleton.mpr rfl
  · simp
  · rw [hq]
    exact List.mem_singleton.mpr rfl

/-- C6: if every collected match lacks a text metadata field, the merged
context is empty, generation is skipped, and the handler returns exactly
the fixed fallback string with success true and an empty reference list,
whatever the generation provider would have answered. -/
theorem c6_no_text_yields_fallback (penv : PineconeEnv) (oenv : OpenAIEnv)
    (request : QueryRequest) (qv : List Rat) (idxs : List String)
    (hE : oenv.generateEmbedding request.query = .ok qv)
    (hI : penv.listIndexes = .ok idxs)
    (hT : ∀ m ∈ collect_results penv qv idxs request.top_k,
        ∀ md, m.metadata = some md → md.text = none) :
    handle_query penv oenv request =
      .ok { response := fallback_response, success := true,
            references := [] } := by
  have hq := query_entire_database_ok penv oenv request.top_k hE hI
  set ms := (sort_by_score_desc
    (collect_results penv qv idxs request.top_k)).take request.top_k with hms
  have hsub : ∀ m ∈ ms, m ∈ collect_results penv qv idxs request.top_k := by
    intro m hm
    have h1 : m ∈ sort_by_score_desc
        (collect_results penv qv idxs request.top_k) :=
      (List.take_sublist _ _).mem hm
    exact ((sort_by_score_desc_perm _).mem_iff).mp h1
  have hctx : ms.filterMap context_of = [] := by
    rw [List.filterMap_eq_nil_iff]
    intro m hm
    rcases hmd : m.metadata with _ | md
    · simp only [context_of, hmd]
    · simp only [context_of, hmd, hT m (hsub m hm) md hmd]
  have hext : extract_context_and_references ms =
      ("", ms.filterMap reference_of) := by
    rw [extract_context_and_references_eq, hctx]
    rfl
  unfold handle_query search_entire_database
  rw [hq]
  dsimp only
  rw [hext]
  simp

def meta_ref_only : Metadata :=
  { text := none, file_name := some "doc.pdf", page := some 3 }

def raw_ref_only : RawMatch := { score := 0.9, metadata := some meta_ref_only }

def penv_ref_only : PineconeEnv :=
  { listIndexes := .ok ["idx-a"],
    listNamespacesOf := fun _ => .ok ["ns"],
    queryRaw := fun _ _ _ _ => .ok [raw_ref_only] }

def match_ref_only : Match :=
  { score := 0.9, metadata := some meta_ref_only, index_name := "idx-a",
    «namespace» := "ns" }

/-- Witness for C6: a provider whose only match carries no text field. -/
theorem c6_witness :
    oenv_ok.generateEmbedding "q" = .ok []
    ∧ penv_ref_only.listIndexes = .ok ["idx-a"]
    ∧ handle_query penv_ref_only oenv_ok { query := "q", top_k := 5 } =
        .ok { response := fallback_response, success := true,
              references := [] } := by
  refine ⟨rfl, rfl, ?_⟩
  apply c6_no_text_yields_fallback penv_ref_only oenv_ok _ [] ["idx-a"] rfl rfl
  intro m hm md hmd
  have hcoll : collect_results penv_ref_only [] ["idx-a"] 5 = [match_ref_only] :=
    rfl
  rw [hcoll] at hm
  have hm2 : m = match_ref_only := by simpa using hm
  rw [hm2] at hmd
  have hmd2 : some meta_ref_only = some md := hmd
  simp only [Option.some.injEq] at hmd2
  rw [← hmd2]
  rfl

/-- C7: inside the extraction loop the text check and the file_name/page
check are independent: a match with text but missing file_name or page
contributes its tagged context fragment and no Reference, while a match
with file_name and page but no text contributes a Reference and no
context fragment, wherever the match sits in the truncated list. -/
theorem c7_text_and_reference_independent :
    (∀ (l1 l2 : List Match) (m : Match) (md : Metadata) (t : String),
        m.metadata = some md → md.text = some t →
        md.file_name = none ∨ md.page = none →
        (extract_loop (l1 ++ m :: l2)).1 =
          (extract_loop l1).1 ++ (source_info m ++ t) :: (extract_loop l2).1
        ∧ (extract_loop (l1 ++ m :: l2)).2 =
          (extract_loop l1).2 ++ (extract_loop l2).2)
    ∧ (∀ (l1 l2 : List Match) (m : Match) (md : Metadata) (fn : String)
        (pg : Int), m.metadata = some md → md.text = none →
        md.file_name = some fn → md.page = some pg →
        (extract_loop (l1 ++ m :: l2)).1 =
          (extract_loop l1).1 ++ (extract_loop l2).1
        ∧ (extract_loop (l1 ++ m :: l2)).2 =
          (extract_loop l1).2 ++
            Reference.pydanticMk fn pg m.«namespace» m.index_name ::
              (extract_loop l2).2) := by
  constructor
  · intro l1 l2 m md t hmd ht hnp
    have hcf : context_of m = some (source_info m ++ t) := by
      simp only [context_of, hmd, ht]
    have hrf : reference_of m = none := by
      rcases hnp with h | h
      · rcases hp : md.page with _ | pg <;>
          simp only [reference_of, hmd, h, hp]
      · rcases hf : md.file_name with _ | fn <;>
          simp only [reference_of, hmd, hf, h]
    constructor
    · simp [extract_loop_eq, List.filterMap_append, List.filterMap_cons, hcf]
    · simp [extract_loop_eq, List.filterMap_append, List.filterMap_cons, hrf]
  · intro l1 l2 m md fn pg hmd ht hf hp
    have hcf : context_of m = none := by
      simp only [context_of, hmd, ht]
    have hrf : reference_of m =
        some (Reference.pydanticMk fn pg m.«namespace» m.index_name) := by
      simp only [reference_of, hmd, hf, hp]
    constructor
    · simp [extract_loop_eq, List.filterMap_append, List.filterMap_cons, hcf]
    · simp [extract_loop_eq, List.filterMap_append, List.filterMap_cons, hrf]

def meta_text_only : Metadata :=
  { text := some "chunk text", file_name := none, page := none }

def match_text_only : Match :=
  { score := 0.9, metadata := some meta_text_only, index_name := "idx-a",
    «namespace» := "ns" }

/-- Witness for C7 at a text-only match and a file_name/page-only match. -/
theorem c7_witness :
    (match_text_only.metadata = some meta_text_only
      ∧ meta_text_only.text = some "chunk text"
      ∧ (meta_text_only.file_name = none ∨ meta_text_only.page = none)
      ∧ (extract_loop [match_text_only]).1 =
          [source_info match_text_only ++ "chunk text"]
      ∧ (extract_loop [match_text_only]).2 = [])
    ∧ (match_ref_only.metadata = some meta_ref_only
      ∧ meta_ref_only.text = none
      ∧ meta_ref_only.file_name = some "doc.pdf"
      ∧ meta_ref_only.page = some 3
      ∧ (extract_loop [match_ref_only]).1 = []
      ∧ (extract_loop [match_ref_only]).2 =
          [Reference.pydanticMk "doc.pdf" 3 "ns" "idx-a"]) := by
  constructor
  · have h := c7_text_and_reference_independent.1 [] [] match_text_only
      meta_text_only "chunk text" rfl rfl (Or.inl rfl)
    exact ⟨rfl, rfl, Or.inl rfl, by simpa using h.1, by simpa using h.2⟩
  · have h := c7_text_and_reference_independent.2 [] [] match_ref_only
      meta_ref_only "doc.pdf" 3 rfl rfl rfl rfl
    exact ⟨rfl, rfl, rfl, rfl, by simpa using h.1, by simpa using h.2⟩

/-- C9: whenever the database-wide search yields an empty merged context,
the handler returns the fallback with an empty reference list, even when
the search itself produced a non-empty reference list: extracted
references are discarded on the fallback path. -/
theorem c9_empty_context_discards_references (penv : PineconeEnv)
    (oenv : OpenAIEnv) (request : QueryRequest) (refs : List Reference)
    (h : search_entire_database penv oenv request.query request.top_k =
      .ok ("", refs)) :
    handle_query penv oenv request =
      .ok { response := fallback_response, success := true,
            references := [] } := by
  unfold handle_query
  rw [h]
  rfl

/-- Witness for C9: the search returns an empty context together with one
extracted reference, and the handler still responds with no references. -/
theorem c9_witness :
    search_entire_database penv_ref_only oenv_ok "q" 5 =
      .ok ("", [{ file_name := "doc.pdf", page := 3, «namespace» := "ns" }])
    ∧ handle_query penv_ref_only oenv_ok { query := "q", top_k := 5 } =
      .ok { response := fallback_response, success := true,
            references := [] } :=
  ⟨rfl, c9_empty_context_discards_references penv_ref_only oenv_ok
      { query := "q", top_k := 5 }
      [{ file_name := "doc.pdf", page := 3, «namespace» := "ns" }] rfl⟩

/-- C10: a match with no metadata key at all is skipped entirely by
extraction: it contributes no context fragment and no Reference, and
extraction (a total function in this model, matching the guarded access
in the source) returns the same value as if the match were absent. -/
theorem c10_no_metadata_skipped (l1 l2 : List Match) (m : Match)
    (h : m.metadata = none) :
    extract_context_and_references (l1 ++ m :: l2) =
      extract_context_and_references (l1 ++ l2) := by
  have hc : context_of m = none := by
    unfold context_of
    rw [h]
  have hr : reference_of m = none := by
    unfold reference_of
    rw [h]
  rw [extract_context_and_references_eq, extract_context_and_references_eq]
  simp [List.filterMap_append, List.filterMap_cons, hc, hr]

def match_no_meta : Match :=
  { score := 0.9, metadata := none, index_name := "idx-a", «namespace» := "ns" }

/-- Witness for C10 with a concrete metadata-free match. -/
theorem c10_witness :
    match_no_meta.metadata = none
    ∧ extract_context_and_references [match_ref_a, match_no_meta] =
        extract_context_and_references [match_ref_a] :=
  ⟨rfl, by
    have h := c10_no_metadata_skipped [match_ref_a] [] match_no_meta rfl
    simpa using h⟩
